import Mathlib

set_option maxHeartbeats 1000000

/-!
Shallow embedding of the Tetris engine of this repository
(src/tetris_frontend/src/tetris/engine.ts) together with the game-logic part
of the TetrisGame component (src/tetris_frontend/src/components/TetrisGame.tsx
and the variant in src/unnamed/part_001).  JS arrays become `List`s, machine
numbers become `Nat`/`Int` (with explicit `% 2^32` where the PRNG relies on
32-bit wrap-around), floats produced by the injected random generator become
`ℚ`, the stateful bag randomizer becomes explicit state passing, and the React
state updates of one gravity step become a function from session state to
session state.
-/

/-- Cell of the board, as in src/unnamed/part_000: filled flag plus a color. -/
structure Cell where
  filled : Bool
  color : String
deriving DecidableEq

/-- Board: rows (top to bottom) of cells. -/
abbrev Board := List (List Cell)

/-- Position of the shape matrix's top-left corner, board coordinates. -/
structure Position where
  x : Int
  y : Int
deriving DecidableEq

/-- The seven classic tetromino identifiers. -/
inductive TetrominoType where
  | I | O | T | S | Z | J | L
deriving DecidableEq

/-- Piece definition: shape matrix (0/1 entries) plus a color token. -/
structure Tetromino where
  shape : List (List Nat)
  color : String
deriving DecidableEq

/-- Game status, as in src/unnamed/part_000. -/
inductive GameStatus where
  | running | paused | gameover
deriving DecidableEq

/-- The empty cell value used by createEmptyBoard and clearRows. -/
def emptyCell : Cell := ⟨false, "transparent"⟩

/-- Piece catalog TETROMINOS together with the getTetromino lookup
(engine.ts lines 4-67). -/
def getTetromino : TetrominoType → Tetromino
  | .I => ⟨[[0, 0, 0, 0], [1, 1, 1, 1], [0, 0, 0, 0], [0, 0, 0, 0]], "#2196F3"⟩
  | .O => ⟨[[1, 1], [1, 1]], "#FFEB3B"⟩
  | .T => ⟨[[0, 1, 0], [1, 1, 1], [0, 0, 0]], "#9C27B0"⟩
  | .S => ⟨[[0, 1, 1], [1, 1, 0], [0, 0, 0]], "#43A047"⟩
  | .Z => ⟨[[1, 1, 0], [0, 1, 1], [0, 0, 0]], "#E53935"⟩
  | .J => ⟨[[1, 0, 0], [1, 1, 1], [0, 0, 0]], "#1565C0"⟩
  | .L => ⟨[[0, 0, 1], [1, 1, 1], [0, 0, 0]], "#FFA726"⟩

/-- TETROMINO_SEQUENCE (engine.ts line 63). -/
def TETROMINO_SEQUENCE : List TetrominoType := [.I, .O, .T, .S, .Z, .J, .L]

/-- One JS array-destructuring swap step of the Fisher-Yates loop:
swaps the entries at indices i and j. -/
def listSwap (l : List TetrominoType) (i j : Nat) : List TetrominoType :=
  let vi := l.getD i .I
  let vj := l.getD j .I
  (l.set i vj).set j vi

/-- The Fisher-Yates shuffle of engine.ts lines 85-92, with the mutable
generator rendered as a stream g of rationals in [0,1) and the call counter k
made explicit.  The remaining loop counter i runs from array.length - 1 down
to 1; the recursion argument i here is that loop counter, so the loop body for
counter value i + 1 picks j = floor(g k * (i + 2)). -/
def shuffleFrom (g : Nat → ℚ) : List TetrominoType → Nat → Nat → List TetrominoType
  | a, _, 0 => a
  | a, k, i + 1 =>
    let j := (Int.floor (g k * ((i : ℚ) + 2))).toNat
    shuffleFrom g (listSwap a (i + 1) j) (k + 1) i

/-- State owned by one bag randomizer: the current bag plus the number of
generator calls consumed so far (the stream position). -/
structure BagState where
  bag : List TetrominoType
  calls : Nat
deriving DecidableEq

/-- The refill branch of the next function of createBagRNG (engine.ts lines
74-83): when the bag is empty it is refilled with a shuffle of
TETROMINO_SEQUENCE, consuming 6 generator calls. -/
def bagRefill (g : Nat → ℚ) (s : BagState) : BagState :=
  if s.bag.isEmpty then ⟨shuffleFrom g TETROMINO_SEQUENCE s.calls 6, s.calls + 6⟩ else s

/-- One call of the next function of createBagRNG: refill if empty, then pop
from the end of the bag (bag.pop()).  The pop of an empty bag cannot occur
after a refill; the default .I only totalizes the function. -/
def bagNext (g : Nat → ℚ) (s : BagState) : TetrominoType × BagState :=
  let t := bagRefill g s
  (t.bag.getLast?.getD .I, ⟨t.bag.dropLast, t.calls⟩)

/-- Bag state after n draws, starting from the fresh state createBagRNG
returns (empty bag, generator untouched). -/
def bagStateAfter (g : Nat → ℚ) : Nat → BagState
  | 0 => ⟨[], 0⟩
  | n + 1 => (bagNext g (bagStateAfter g n)).2

/-- The n-th draw (0-indexed) of the function returned by createBagRNG. -/
def bagDraw (g : Nat → ℚ) (n : Nat) : TetrominoType :=
  (bagNext g (bagStateAfter g n)).1

/-- createEmptyBoard (engine.ts lines 94-101). -/
def createEmptyBoard (rows : Nat := 20) (cols : Nat := 10) : Board :=
  List.replicate rows (List.replicate cols emptyCell)

/-- rotate (engine.ts lines 103-112).  The source writes
result[x][N - 1 - y] = matrix[y][x] into an N x N zero matrix; every output
cell is written exactly once, so output row i, column j holds
matrix[N - 1 - j][i].  The getD defaults correspond to the zero fill and are
never reached on square input. -/
def rotate (matrix : List (List Nat)) : List (List Nat) :=
  let N := matrix.length
  (List.range N).map fun i =>
    (List.range N).map fun j => (matrix.getD (N - 1 - j) []).getD i 0

/-- isValidPosition (engine.ts lines 114-133): every occupied shape cell must
land inside [0, board[0].length) x [0, board.length) on an unfilled cell. -/
def isValidPosition (board : Board) (shape : List (List Nat)) (pos : Position) : Bool :=
  (List.range shape.length).all fun y =>
    (List.range ((shape.getD y []).length)).all fun x =>
      if (shape.getD y []).getD x 0 ≠ 0 then
        if pos.x + (x : Int) < 0 ∨ ((board.headD []).length : Int) ≤ pos.x + (x : Int) ∨
            pos.y + (y : Int) < 0 ∨ (board.length : Int) ≤ pos.y + (y : Int) then
          false
        else
          !((board.getD (pos.y + (y : Int)).toNat []).getD (pos.x + (x : Int)).toNat
              emptyCell).filled
      else true

/-- Test used by mergeBoard: is board cell (row r, column c) covered by an
occupied cell of the shape placed at pos. -/
def cellCovered (shape : List (List Nat)) (pos : Position) (r c : Nat) : Bool :=
  (List.range shape.length).any fun y =>
    (List.range ((shape.getD y []).length)).any fun x =>
      (shape.getD y []).getD x 0 ≠ 0 ∧
        pos.x + (x : Int) = (c : Int) ∧ pos.y + (y : Int) = (r : Int)

/-- mergeBoard (engine.ts lines 135-157): copy of the board in which every
in-bounds covered cell becomes filled with the piece color.  The source bounds
check uses newBoard[0].length for the column bound, kept here as the extra
c < cols conjunct. -/
def mergeBoard (board : Board) (shape : List (List Nat)) (pos : Position)
    (color : String) : Board :=
  let rows := board.length
  let cols := (board.headD []).length
  (List.range rows).map fun r =>
    (List.range ((board.getD r []).length)).map fun c =>
      if c < cols ∧ cellCovered shape pos r c = true then ⟨true, color⟩
      else (board.getD r []).getD c emptyCell

/-- Full-row test of clearRows: every cell of the row is filled. -/
def isFullRow (row : List Cell) : Bool := row.all fun c => c.filled

/-- clearRows (engine.ts lines 159-183): drop the full rows (counting them),
then pad new empty rows at the top until the row count is restored. -/
def clearRows (board : Board) : Board × Nat :=
  let rows := board.length
  let cols := (board.headD []).length
  let kept := board.filter fun r => !isFullRow r
  let cleared := board.countP fun r => isFullRow r
  (List.replicate (rows - kept.length) (List.replicate cols emptyCell) ++ kept, cleared)

/-- One state advance of the Mulberry32 generator (engine.ts lines 185-195):
a = (a + 0x6D2B79F5) | 0, on the unsigned 32-bit pattern of the state. -/
def mulberry32Next (a : Nat) : Nat := (a + 0x6D2B79F5) % 4294967296

/-- The output mix of one Mulberry32 call from the freshly advanced state:
two xor-shift-multiply rounds on 32-bit patterns, then division by 2^32.
Math.imul is multiplication mod 2^32 on the patterns; x >>> k, ^ and | act on
the patterns directly; the one plain + feeds into an Int32 coercion and is
therefore also taken mod 2^32. -/
def mulberry32Out (a : Nat) : ℚ :=
  let t1 := ((a ^^^ (a >>> 15)) * (a ||| 1)) % 4294967296
  let t2 := t1 ^^^ ((t1 + (((t1 ^^^ (t1 >>> 7)) * (t1 ||| 61)) % 4294967296)) % 4294967296)
  ((t2 ^^^ (t2 >>> 14) : Nat) : ℚ) / 4294967296

/-- Mulberry32 state after n advances; the seed is brought into 32-bit range
by the initial a |= 0 (a mod-2^32 pattern). -/
def mulberry32StateAfter (seed : Int) : Nat → Nat
  | 0 => (seed % 4294967296).toNat
  | n + 1 => mulberry32Next (mulberry32StateAfter seed n)

/-- randomSeededRNG (engine.ts lines 185-195) as a stream: the n-th output of
the closure returned for the given seed. -/
def rngStream (seed : Int) : Nat → ℚ :=
  fun n => mulberry32Out (mulberry32StateAfter seed (n + 1))

/-- BOARD_WIDTH (TetrisGame.tsx line 21). -/
def BOARD_WIDTH : Nat := 10

/-- BOARD_HEIGHT (TetrisGame.tsx line 22). -/
def BOARD_HEIGHT : Nat := 20

/-- LEVEL_SPEEDS (TetrisGame.tsx lines 37-40); only its length matters for the
level formula. -/
def LEVEL_SPEEDS : List Nat :=
  [800, 700, 600, 500, 400, 350, 300, 260, 220, 180,
   150, 120, 100, 90, 80, 70, 60, 55, 50, 40]

/-- getLevelByLines (TetrisGame.tsx lines 62-64). -/
def getLevelByLines (linesCleared : Nat) : Nat :=
  min (linesCleared / 10) (LEVEL_SPEEDS.length - 1)

/-- The classic score table of getScoreForClearedRows. -/
def points : List Nat := [0, 40, 100, 300, 1200]

/-- getScoreForClearedRows (TetrisGame.tsx lines 66-70): (points[rows] ?? 0)
times (level + 1); an out-of-range index yields 0 through the ?? 0. -/
def getScoreForClearedRows (rows level : Nat) : Nat :=
  points.getD rows 0 * (level + 1)

/-- The currently falling piece (PieceState in TetrisGame.tsx). -/
structure PieceState where
  type : TetrominoType
  shape : List (List Nat)
  pos : Position
  color : String
deriving DecidableEq

/-- One game session's React state relevant to the engine claims, plus the
bag randomizer state owned by the session. -/
structure Session where
  board : Board
  piece : Option PieceState
  nextPieceType : Option TetrominoType
  score : Nat
  lines : Nat
  level : Nat
  status : GameStatus
  bag : BagState
deriving DecidableEq

/-- Spawn position of a shape: x = floor((BOARD_WIDTH - shape[0].length) / 2),
y = 0 (TetrisGame.tsx line 143). -/
def spawnPos (shape : List (List Nat)) : Position :=
  ⟨Int.fdiv ((BOARD_WIDTH : Int) - ((shape.headD []).length : Int)) 2, 0⟩

/-- spawnPiece (TetrisGame.tsx lines 135-147): promote nextPieceType (drawing
one if absent), draw a fresh preview type, and place the promoted piece in
spawn orientation at the spawn position.  It does not consult the status. -/
def spawnStep (g : Nat → ℚ) (s : Session) : Session :=
  let r1 : TetrominoType × BagState :=
    match s.nextPieceType with
    | some t => (t, s.bag)
    | none => bagNext g s.bag
  let r2 := bagNext g r1.2
  let t := getTetromino r1.1
  { s with
    piece := some ⟨r1.1, t.shape, spawnPos t.shape, t.color⟩,
    nextPieceType := some r2.1,
    bag := r2.2 }

/-- The synchronous part of fall (TetrisGame.tsx lines 150-186): move the
piece a row down if that is valid; otherwise lock it (merge, clear rows,
score/lines with the pre-lock level, recompute the level) and flag that a
spawn was scheduled; a lock with the piece at row 0 also sets gameover.  The
Bool records whether the 10 ms spawn timeout was scheduled. -/
def fallStep (s : Session) : Session × Bool :=
  match s.piece with
  | none => (s, false)
  | some p =>
    if s.status ≠ GameStatus.running then (s, false)
    else if isValidPosition s.board p.shape ⟨p.pos.x, p.pos.y + 1⟩ then
      ({ s with piece := some { p with pos := ⟨p.pos.x, p.pos.y + 1⟩ } }, false)
    else
      let cr := clearRows (mergeBoard s.board p.shape p.pos p.color)
      ({ s with
          board := cr.1,
          score := if cr.2 ≠ 0 then s.score + getScoreForClearedRows cr.2 s.level else s.score,
          lines := if cr.2 ≠ 0 then s.lines + cr.2 else s.lines,
          level := getLevelByLines (s.lines + cr.2),
          status := if p.pos.y = 0 then GameStatus.gameover else s.status },
        true)

/-- One full gravity tick: the fall handler plus, when a lock scheduled it,
the deferred spawnPiece call, which the source runs unconditionally (the
10 ms setTimeout is never cancelled and spawnPiece has no status guard). -/
def tick (g : Nat → ℚ) (s : Session) : Session :=
  if (fallStep s).2 then spawnStep g (fallStep s).1 else (fallStep s).1

/-- moveLeft (src/unnamed/part_001 lines 437-442): shift the piece one column
left when the session is running and the target is valid. -/
def moveLeft (s : Session) : Session :=
  match s.piece with
  | none => s
  | some p =>
    if s.status = GameStatus.running then
      if isValidPosition s.board p.shape ⟨p.pos.x - 1, p.pos.y⟩ then
        { s with piece := some { p with pos := ⟨p.pos.x - 1, p.pos.y⟩ } }
      else s
    else s

/-- moveRight (src/unnamed/part_001 lines 443-448). -/
def moveRight (s : Session) : Session :=
  match s.piece with
  | none => s
  | some p =>
    if s.status = GameStatus.running then
      if isValidPosition s.board p.shape ⟨p.pos.x + 1, p.pos.y⟩ then
        { s with piece := some { p with pos := ⟨p.pos.x + 1, p.pos.y⟩ } }
      else s
    else s

/-- moveDown (src/unnamed/part_001 lines 449-454): the soft drop. -/
def moveDown (s : Session) : Session :=
  match s.piece with
  | none => s
  | some p =>
    if s.status = GameStatus.running then
      if isValidPosition s.board p.shape ⟨p.pos.x, p.pos.y + 1⟩ then
        { s with piece := some { p with pos := ⟨p.pos.x, p.pos.y + 1⟩ } }
      else s
    else s

/-- rotatePiece (src/unnamed/part_001 lines 455-461): rotate in place when
valid at the unchanged position. -/
def rotatePiece (s : Session) : Session :=
  match s.piece with
  | none => s
  | some p =>
    if s.status = GameStatus.running then
      if isValidPosition s.board (rotate p.shape) p.pos then
        { s with piece := some { p with shape := rotate p.shape } }
      else s
    else s

/-- A single-cell piece sitting at the top-left corner, used for the concrete
lock-at-row-0 scenarios. -/
def cexPiece : PieceState := ⟨.T, [[1]], ⟨0, 0⟩, "#9C27B0"⟩

/-- A running session on a 2 x 2 board whose cell below the piece is filled,
so the gravity step locks the piece while it still sits at row 0. -/
def cexSession : Session :=
  { board := [[⟨false, "transparent"⟩, ⟨false, "transparent"⟩],
              [⟨true, "#9C27B0"⟩, ⟨false, "transparent"⟩]],
    piece := some cexPiece,
    nextPieceType := some .O,
    score := 0, lines := 0, level := 0,
    status := GameStatus.running,
    bag := ⟨[], 0⟩ }

/-- A single-cell piece at the origin of a fully blocked board. -/
def blockedPiece : PieceState := ⟨.T, [[1]], ⟨0, 0⟩, "#9C27B0"⟩

/-- A running session on a 2 x 1 board with every cell filled: the left,
right, down and rotation targets of the piece are all invalid. -/
def blockedSession : Session :=
  { board := [[⟨true, "#111111"⟩], [⟨true, "#111111"⟩]],
    piece := some blockedPiece,
    nextPieceType := some .S,
    score := 3, lines := 1, level := 0,
    status := GameStatus.running,
    bag := ⟨[.J], 4⟩ }

/-- Getting an element of a mapped range at an in-range index yields the
function value. -/
lemma getD_map_range {α : Type} (f : Nat → α) (d : α) {N i : Nat} (h : i < N) :
    ((List.range N).map f).getD i d = f i := by
  rw [List.getD_eq_getElem _ _ (by simpa using h)]
  simp

/-- C10: a shape with no occupied cells is valid at every position, even one
entirely outside a (positive-dimension) board: isValidPosition only ever
constrains the occupied cells of the shape. -/
theorem c10_empty_shape_valid (board : Board) (shape : List (List Nat)) (pos : Position)
    (hr : 0 < board.length) (hc : 0 < (board.headD []).length)
    (hz : ∀ row ∈ shape, ∀ v ∈ row, v = 0) :
    isValidPosition board shape pos = true := by
  unfold isValidPosition
  simp only [List.all_eq_true, List.mem_range]
  intro y hy x hx
  have hrow : shape.getD y [] ∈ shape := by
    rw [List.getD_eq_getElem _ _ hy]
    exact List.getElem_mem hy
  have hmem : (shape.getD y []).getD x 0 ∈ shape.getD y [] := by
    rw [List.getD_eq_getElem _ _ hx]
    exact List.getElem_mem hx
  have h0 : (shape.getD y []).getD x 0 = 0 := hz _ hrow _ hmem
  have hno : ¬((shape.getD y []).getD x 0 ≠ 0) := fun hcon => hcon h0
  rw [if_neg hno]

/-- C10 witness: a concrete all-zero shape is accepted at a position far
outside a concrete 1 x 1 board. -/
theorem c10_empty_shape_valid_witness :
    isValidPosition [[emptyCell]] [[0, 0], [0, 0]] ⟨-5, 7⟩ = true :=
  c10_empty_shape_valid [[emptyCell]] [[0, 0], [0, 0]] ⟨-5, 7⟩ (by decide) (by decide)
    (by decide)

/-- C2: on a rows x cols board, isValidPosition holds exactly when every
occupied shape cell lands inside [0, cols) x [0, rows) on an unfilled cell
(equivalently, it returns false iff some occupied cell exits the bounds or
hits a filled cell). -/
theorem c2_isValidPosition_iff (board : Board) (shape : List (List Nat)) (pos : Position)
    (rows cols : Nat) (hrows : board.length = rows)
    (hcols : ∀ row ∈ board, row.length = cols) (hne : board ≠ []) :
    isValidPosition board shape pos = true ↔
      ∀ y, y < shape.length → ∀ x, x < (shape.getD y []).length →
        (shape.getD y []).getD x 0 ≠ 0 →
          0 ≤ pos.x + (x : Int) ∧ pos.x + (x : Int) < (cols : Int) ∧
          0 ≤ pos.y + (y : Int) ∧ pos.y + (y : Int) < (rows : Int) ∧
          ((board.getD (pos.y + (y : Int)).toNat []).getD (pos.x + (x : Int)).toNat
            emptyCell).filled = false := by
  have hhead : (board.headD []).length = cols := by
    cases board with
    | nil => exact absurd rfl hne
    | cons r rs => exact hcols r (List.mem_cons_self r rs)
  unfold isValidPosition
  simp only [hhead, hrows, List.all_eq_true, List.mem_range]
  constructor
  · intro h y hy x hx hocc
    have h2 := h y hy x hx
    rw [if_pos hocc] at h2
    split at h2
    · exact absurd h2 (by simp)
    · rename_i hbad
      push_neg at hbad
      obtain ⟨b1, b2, b3, b4⟩ := hbad
      refine ⟨by omega, by omega, by omega, by omega, ?_⟩
      simpa using h2
  · intro h y hy x hx
    by_cases hocc : (shape.getD y []).getD x 0 ≠ 0
    · rw [if_pos hocc]
      obtain ⟨c1, c2, c3, c4, c5⟩ := h y hy x hx hocc
      rw [if_neg (by push_neg; exact ⟨by omega, by omega, by omega, by omega⟩)]
      rw [Bool.not_eq_true']
      exact c5
    · rw [if_neg hocc]

/-- C2 witness: the characterization instantiated at a concrete empty 2 x 2
board, a one-cell shape and the origin. -/
theorem c2_isValidPosition_iff_witness :
    isValidPosition (createEmptyBoard 2 2) [[1]] ⟨0, 0⟩ = true ↔
      ∀ y, y < ([[1]] : List (List Nat)).length →
        ∀ x, x < (([[1]] : List (List Nat)).getD y []).length →
          (([[1]] : List (List Nat)).getD y []).getD x 0 ≠ 0 →
            0 ≤ (0 : Int) + (x : Int) ∧ (0 : Int) + (x : Int) < (2 : Int) ∧
            0 ≤ (0 : Int) + (y : Int) ∧ (0 : Int) + (y : Int) < (2 : Int) ∧
            (((createEmptyBoard 2 2).getD ((0 : Int) + (y : Int)).toNat []).getD
              ((0 : Int) + (x : Int)).toNat emptyCell).filled = false :=
  c2_isValidPosition_iff (createEmptyBoard 2 2) [[1]] ⟨0, 0⟩ 2 2 (by decide) (by decide)
    (by decide)

/-- Splitting a list by a Bool predicate preserves the total length. -/
lemma length_filter_add_length_filter_not {α : Type} (p : α → Bool) (l : List α) :
    (l.filter p).length + (l.filter fun a => !p a).length = l.length := by
  induction l with
  | nil => rfl
  | cons x xs ih => cases hx : p x <;> simp [List.filter_cons, hx] <;> omega

/-- C3: clearRows removes exactly the all-filled rows, keeps the others in
their original relative order (they form a sublist of the input), pads the top
with that many all-empty rows so the row count is preserved, and reports the
number of removed rows. -/
theorem c3_clearRows_spec (board : Board) (hne : board ≠ []) :
    (clearRows board).1.length = board.length ∧
    (clearRows board).2 = (board.filter fun r => isFullRow r).length ∧
    (clearRows board).1 =
      List.replicate ((clearRows board).2)
        (List.replicate ((board.headD []).length) emptyCell) ++
        board.filter (fun r => !isFullRow r) ∧
    (board.filter fun r => !isFullRow r).Sublist board ∧
    ∀ row ∈ (clearRows board).1.take ((clearRows board).2), ∀ c ∈ row, c.filled = false := by
  have hcount : (board.filter fun r => isFullRow r).length +
      (board.filter fun r => !isFullRow r).length = board.length :=
    length_filter_add_length_filter_not _ _
  have hc2 : (clearRows board).2 = (board.filter fun r => isFullRow r).length := by
    simp [clearRows, List.countP_eq_length_filter]
  have h1 : (clearRows board).1 =
      List.replicate (board.length - (board.filter fun r => !isFullRow r).length)
        (List.replicate ((board.headD []).length) emptyCell) ++
        board.filter (fun r => !isFullRow r) := rfl
  have hrep : board.length - (board.filter fun r => !isFullRow r).length =
      (clearRows board).2 := by omega
  refine ⟨?_, hc2, ?_, List.filter_sublist board, ?_⟩
  · rw [h1]
    simp only [List.length_append, List.length_replicate]
    omega
  · rw [h1, hrep]
  · intro row hrow c hc
    rw [h1, hrep] at hrow
    rw [List.take_left' (List.length_replicate _ _)] at hrow
    have hrowe := List.eq_of_mem_replicate hrow
    subst hrowe
    have hce := List.eq_of_mem_replicate hc
    subst hce
    rfl

/-- C3 witness: the specification evaluated on the concrete one-row board
whose single row is full. -/
theorem c3_clearRows_spec_witness :
    (clearRows [[⟨true, "a"⟩]]).1.length = ([[⟨true, "a"⟩]] : Board).length ∧
    (clearRows [[⟨true, "a"⟩]]).2 =
      (([[⟨true, "a"⟩]] : Board).filter fun r => isFullRow r).length ∧
    (clearRows [[⟨true, "a"⟩]]).1 =
      List.replicate ((clearRows [[⟨true, "a"⟩]]).2)
        (List.replicate ((([[⟨true, "a"⟩]] : Board).headD []).length) emptyCell) ++
        ([[⟨true, "a"⟩]] : Board).filter (fun r => !isFullRow r) ∧
    (([[⟨true, "a"⟩]] : Board).filter fun r => !isFullRow r).Sublist [[⟨true, "a"⟩]] ∧
    ∀ row ∈ (clearRows [[⟨true, "a"⟩]]).1.take ((clearRows [[⟨true, "a"⟩]]).2),
      ∀ c ∈ row, c.filled = false :=
  c3_clearRows_spec [[⟨true, "a"⟩]] (by decide)

/-- Rows of a rotated matrix all have the side length of the input. -/
lemma rotate_row_mem (m : List (List Nat)) : ∀ row ∈ rotate m, row.length = m.length := by
  intro row hrow
  simp only [rotate, List.mem_map, List.mem_range] at hrow
  obtain ⟨i, _, rfl⟩ := hrow
  simp

/-- Entry formula of rotate at in-range indices. -/
lemma rotate_getD (m : List (List Nat)) {y x : Nat} (hy : y < m.length)
    (hx : x < m.length) :
    ((rotate m).getD y []).getD x 0 = (m.getD (m.length - 1 - x) []).getD y 0 := by
  simp only [rotate]
  rw [getD_map_range _ _ hy, getD_map_range _ _ hx]

/-- Row length of a rotated matrix at an in-range row index. -/
lemma rotate_rowlen (m : List (List Nat)) {i : Nat} (hi : i < m.length) :
    ((rotate m).getD i []).length = m.length := by
  simp only [rotate]
  rw [getD_map_range _ _ hi]
  simp

/-- C6: rotate of a square N x N matrix is again N x N and its cell at row y,
column x is the input cell at row N - 1 - x, column y (the standard 90 degree
clockwise rotation). -/
theorem c6_rotate_spec (m : List (List Nat)) (h : ∀ row ∈ m, row.length = m.length) :
    (rotate m).length = m.length ∧
    (∀ row ∈ rotate m, row.length = m.length) ∧
    ∀ y x, y < m.length → x < m.length →
      ((rotate m).getD y []).getD x 0 = (m.getD (m.length - 1 - x) []).getD y 0 :=
  ⟨by simp [rotate], rotate_row_mem m, fun _ _ hy hx => rotate_getD m hy hx⟩

/-- C6 witness: the rotation formula on a concrete 2 x 2 matrix. -/
theorem c6_rotate_spec_witness :
    (rotate [[1, 0], [0, 1]]).length = ([[1, 0], [0, 1]] : List (List Nat)).length ∧
    (∀ row ∈ rotate [[1, 0], [0, 1]],
      row.length = ([[1, 0], [0, 1]] : List (List Nat)).length) ∧
    ∀ y x, y < ([[1, 0], [0, 1]] : List (List Nat)).length →
      x < ([[1, 0], [0, 1]] : List (List Nat)).length →
      ((rotate [[1, 0], [0, 1]]).getD y []).getD x 0 =
        (([[1, 0], [0, 1]] : List (List Nat)).getD
          (([[1, 0], [0, 1]] : List (List Nat)).length - 1 - x) []).getD y 0 :=
  c6_rotate_spec [[1, 0], [0, 1]] (by decide)

/-- Extensionality for matrices encoded as lists of lists, phrased with getD
lookups. -/
lemma matrix_ext (a b : List (List Nat)) (hlen : a.length = b.length)
    (hrow : ∀ i, i < a.length → (a.getD i []).length = (b.getD i []).length)
    (hentry : ∀ i j, i < a.length → j < (a.getD i []).length →
      (a.getD i []).getD j 0 = (b.getD i []).getD j 0) : a = b := by
  apply List.ext_getElem hlen
  intro i h1 h2
  have hga : a[i] = a.getD i [] := (List.getD_eq_getElem a [] h1).symm
  have hgb : b[i] = b.getD i [] := (List.getD_eq_getElem b [] h2).symm
  rw [hga, hgb]
  apply List.ext_getElem (hrow i h1)
  intro j hj1 hj2
  have e1 : (a.getD i [])[j] = (a.getD i []).getD j 0 := (List.getD_eq_getElem _ 0 hj1).symm
  have e2 : (b.getD i [])[j] = (b.getD i []).getD j 0 := (List.getD_eq_getElem _ 0 hj2).symm
  rw [e1, e2]
  exact hentry i j h1 hj1

/-- C8: four applications of rotate return a square matrix unchanged. -/
theorem c8_rotate_four (m : List (List Nat)) (h : ∀ row ∈ m, row.length = m.length) :
    rotate (rotate (rotate (rotate m))) = m := by
  have l1 : (rotate m).length = m.length := by simp [rotate]
  have l2 : (rotate (rotate m)).length = m.length := by rw [show (rotate (rotate m)).length = (rotate m).length from by simp [rotate], l1]
  have l3 : (rotate (rotate (rotate m))).length = m.length := by
    rw [show (rotate (rotate (rotate m))).length = (rotate (rotate m)).length from by simp [rotate], l2]
  have l4 : (rotate (rotate (rotate (rotate m)))).length = m.length := by
    rw [show (rotate (rotate (rotate (rotate m)))).length = (rotate (rotate (rotate m))).length from by simp [rotate], l3]
  apply matrix_ext _ _ (by rw [l4])
  · intro i hi
    rw [l4] at hi
    have hi3 : i < (rotate (rotate (rotate m))).length := by rw [l3]; exact hi
    rw [rotate_rowlen _ hi3, l3]
    have hmi : m.getD i [] ∈ m := by
      rw [List.getD_eq_getElem m [] hi]
      exact List.getElem_mem hi
    exact (h _ hmi).symm
  · intro i j hi hj
    rw [l4] at hi
    have hi3 : i < (rotate (rotate (rotate m))).length := by rw [l3]; exact hi
    rw [rotate_rowlen _ hi3, l3] at hj
    have hj3 : j < (rotate (rotate (rotate m))).length := by rw [l3]; exact hj
    rw [rotate_getD _ hi3 hj3, l3]
    have ha1 : m.length - 1 - j < (rotate (rotate m)).length := by rw [l2]; omega
    have hb1 : i < (rotate (rotate m)).length := by rw [l2]; exact hi
    rw [rotate_getD _ ha1 hb1, l2]
    have ha2 : m.length - 1 - i < (rotate m).length := by rw [l1]; omega
    have hb2 : m.length - 1 - j < (rotate m).length := by rw [l1]; omega
    rw [rotate_getD _ ha2 hb2, l1]
    rw [show m.length - 1 - (m.length - 1 - j) = j from by omega]
    have ha3 : j < m.length := hj
    have hb3 : m.length - 1 - i < m.length := by omega
    rw [rotate_getD _ ha3 hb3]
    rw [show m.length - 1 - (m.length - 1 - i) = i from by omega]

/-- C8 witness: four rotations of a concrete 2 x 2 matrix. -/
theorem c8_rotate_four_witness :
    rotate (rotate (rotate (rotate [[1, 0], [0, 1]]))) = [[1, 0], [0, 1]] :=
  c8_rotate_four [[1, 0], [0, 1]] (by decide)

/-- On a failed one-row-down validity check in a running session the gravity
handler locks: it merges the piece, clears rows, applies the score/lines
updates with the pre-lock level, recomputes the level from the pre-lock lines
total plus the cleared count, sets gameover exactly when the piece sat at
row 0, and schedules the spawn. -/
lemma fallStep_lock (s : Session) (p : PieceState)
    (hs : s.status = GameStatus.running) (hp : s.piece = some p)
    (hinv : isValidPosition s.board p.shape ⟨p.pos.x, p.pos.y + 1⟩ = false) :
    fallStep s =
      ({ s with
          board := (clearRows (mergeBoard s.board p.shape p.pos p.color)).1,
          score := if (clearRows (mergeBoard s.board p.shape p.pos p.color)).2 ≠ 0 then
              s.score + getScoreForClearedRows
                (clearRows (mergeBoard s.board p.shape p.pos p.color)).2 s.level
            else s.score,
          lines := if (clearRows (mergeBoard s.board p.shape p.pos p.color)).2 ≠ 0 then
              s.lines + (clearRows (mergeBoard s.board p.shape p.pos p.color)).2
            else s.lines,
          level := getLevelByLines
            (s.lines + (clearRows (mergeBoard s.board p.shape p.pos p.color)).2),
          status := if p.pos.y = 0 then GameStatus.gameover else s.status }, true) := by
  simp [fallStep, hp, hs, hinv]

/-- spawnPiece does not touch the status. -/
lemma spawnStep_status (g : Nat → ℚ) (t : Session) : (spawnStep g t).status = t.status := by
  simp [spawnStep]

/-- spawnPiece does not touch the board. -/
lemma spawnStep_board (g : Nat → ℚ) (t : Session) : (spawnStep g t).board = t.board := by
  simp [spawnStep]

/-- spawnPiece does not touch the score. -/
lemma spawnStep_score (g : Nat → ℚ) (t : Session) : (spawnStep g t).score = t.score := by
  simp [spawnStep]

/-- spawnPiece does not touch the lines counter. -/
lemma spawnStep_lines (g : Nat → ℚ) (t : Session) : (spawnStep g t).lines = t.lines := by
  simp [spawnStep]

/-- spawnPiece does not touch the level. -/
lemma spawnStep_level (g : Nat → ℚ) (t : Session) : (spawnStep g t).level = t.level := by
  simp [spawnStep]

/-- spawnPiece always installs a piece. -/
lemma spawnStep_piece_ne (g : Nat → ℚ) (t : Session) : (spawnStep g t).piece ≠ none := by
  simp [spawnStep]

/-- When a preview type is present, spawnPiece promotes it: the active piece
becomes a freshly built piece of that type in spawn orientation at the spawn
position, the preview becomes a fresh bag draw, and the bag advances by that
draw. -/
lemma spawnStep_promote_some (g : Nat → ℚ) (t : Session) (ty : TetrominoType)
    (h : t.nextPieceType = some ty) :
    (spawnStep g t).piece = some ⟨ty, (getTetromino ty).shape,
      spawnPos (getTetromino ty).shape, (getTetromino ty).color⟩ ∧
    (spawnStep g t).nextPieceType = some (bagNext g t.bag).1 ∧
    (spawnStep g t).bag = (bagNext g t.bag).2 := by
  simp [spawnStep, h]

/-- When no preview type is present, spawnPiece draws the promoted type from
the bag first and then draws the new preview. -/
lemma spawnStep_promote_none (g : Nat → ℚ) (t : Session)
    (h : t.nextPieceType = none) :
    (spawnStep g t).piece = some ⟨(bagNext g t.bag).1,
      (getTetromino (bagNext g t.bag).1).shape,
      spawnPos (getTetromino (bagNext g t.bag).1).shape,
      (getTetromino (bagNext g t.bag).1).color⟩ ∧
    (spawnStep g t).nextPieceType = some (bagNext g (bagNext g t.bag).2).1 ∧
    (spawnStep g t).bag = (bagNext g (bagNext g t.bag).2).2 := by
  simp [spawnStep, h]

/-- C1 (amended): when the gravity step locks a piece that sits at row 0, the
lock, row clear and score/lines/level updates occur and the status becomes
GameOver; however the scheduled spawn still runs afterwards (the source
neither cancels the 10 ms spawn timeout nor guards spawnPiece on the status):
in every such session the tick ends with the preview type promoted to a
freshly built active piece in spawn orientation at the spawn position (drawn
from the bag first when no preview is present), the preview replaced by a
fresh bag draw, and the bag state advanced accordingly — not with spawning
suppressed. -/
theorem c1_gameover_tick (g : Nat → ℚ) (s : Session) (p : PieceState)
    (hs : s.status = GameStatus.running) (hp : s.piece = some p)
    (hinv : isValidPosition s.board p.shape ⟨p.pos.x, p.pos.y + 1⟩ = false)
    (hy : p.pos.y = 0) :
    (tick g s).status = GameStatus.gameover ∧
    (tick g s).board = (clearRows (mergeBoard s.board p.shape p.pos p.color)).1 ∧
    (tick g s).score = s.score + getScoreForClearedRows
      (clearRows (mergeBoard s.board p.shape p.pos p.color)).2 s.level ∧
    (tick g s).lines = s.lines + (clearRows (mergeBoard s.board p.shape p.pos p.color)).2 ∧
    (tick g s).level = getLevelByLines
      (s.lines + (clearRows (mergeBoard s.board p.shape p.pos p.color)).2) ∧
    (∀ ty, s.nextPieceType = some ty →
      (tick g s).piece = some ⟨ty, (getTetromino ty).shape,
        spawnPos (getTetromino ty).shape, (getTetromino ty).color⟩ ∧
      (tick g s).nextPieceType = some (bagNext g s.bag).1 ∧
      (tick g s).bag = (bagNext g s.bag).2) ∧
    (s.nextPieceType = none →
      (tick g s).piece = some ⟨(bagNext g s.bag).1,
        (getTetromino (bagNext g s.bag).1).shape,
        spawnPos (getTetromino (bagNext g s.bag).1).shape,
        (getTetromino (bagNext g s.bag).1).color⟩ ∧
      (tick g s).nextPieceType = some (bagNext g (bagNext g s.bag).2).1 ∧
      (tick g s).bag = (bagNext g (bagNext g s.bag).2).2) := by
  have hlock := fallStep_lock s p hs hp hinv
  have htick : tick g s = spawnStep g (fallStep s).1 := by simp [tick, hlock]
  have hbag : ((fallStep s).1).bag = s.bag := by rw [hlock]
  refine ⟨?_, ?_, ?_, ?_, ?_, ?_, ?_⟩
  · simp [tick, hlock, spawnStep_status, hy]
  · simp [tick, hlock, spawnStep_board]
  · simp only [tick, hlock]
    by_cases h0 : (clearRows (mergeBoard s.board p.shape p.pos p.color)).2 = 0
    · simp [spawnStep_score, h0, getScoreForClearedRows, points]
    · simp [spawnStep_score, h0]
  · simp only [tick, hlock]
    by_cases h0 : (clearRows (mergeBoard s.board p.shape p.pos p.color)).2 = 0
    · simp [spawnStep_lines, h0]
    · simp [spawnStep_lines, h0]
  · simp [tick, hlock, spawnStep_level]
  · intro ty hty
    have hnext : ((fallStep s).1).nextPieceType = some ty := by rw [hlock]; exact hty
    have hsp := spawnStep_promote_some g (fallStep s).1 ty hnext
    rw [hbag] at hsp
    rw [htick]
    exact hsp
  · intro hty
    have hnext : ((fallStep s).1).nextPieceType = none := by rw [hlock]; exact hty
    have hsp := spawnStep_promote_none g (fallStep s).1 hnext
    rw [hbag] at hsp
    rw [htick]
    exact hsp

/-- C1 counterexample: in the concrete lock-at-row-0 session the tick does
transition to GameOver, but a next piece is nevertheless spawned — the piece
slot ends the tick holding the freshly spawned O piece (promoted from the
preview) at the spawn position, not the locked piece and not nothing, because
the scheduled spawnPiece call runs regardless of the GameOver transition. -/
theorem c1_counterexample :
    (tick (fun _ => (0 : ℚ)) cexSession).status = GameStatus.gameover ∧
    (tick (fun _ => (0 : ℚ)) cexSession).piece =
      some ⟨.O, [[1, 1], [1, 1]], ⟨4, 0⟩, "#FFEB3B"⟩ ∧
    (tick (fun _ => (0 : ℚ)) cexSession).piece ≠ cexSession.piece :=
  ⟨rfl, rfl, by decide⟩

/-- C1 witness: the amended tick description instantiated at the concrete
lock-at-row-0 session. -/
theorem c1_gameover_tick_witness :
    (tick (fun _ => (0 : ℚ)) cexSession).status = GameStatus.gameover ∧
    (tick (fun _ => (0 : ℚ)) cexSession).board =
      (clearRows (mergeBoard cexSession.board cexPiece.shape cexPiece.pos cexPiece.color)).1 ∧
    (tick (fun _ => (0 : ℚ)) cexSession).score = cexSession.score + getScoreForClearedRows
      (clearRows (mergeBoard cexSession.board cexPiece.shape cexPiece.pos cexPiece.color)).2
      cexSession.level ∧
    (tick (fun _ => (0 : ℚ)) cexSession).lines = cexSession.lines +
      (clearRows (mergeBoard cexSession.board cexPiece.shape cexPiece.pos cexPiece.color)).2 ∧
    (tick (fun _ => (0 : ℚ)) cexSession).level = getLevelByLines (cexSession.lines +
      (clearRows (mergeBoard cexSession.board cexPiece.shape cexPiece.pos cexPiece.color)).2) ∧
    (∀ ty, cexSession.nextPieceType = some ty →
      (tick (fun _ => (0 : ℚ)) cexSession).piece = some ⟨ty, (getTetromino ty).shape,
        spawnPos (getTetromino ty).shape, (getTetromino ty).color⟩ ∧
      (tick (fun _ => (0 : ℚ)) cexSession).nextPieceType =
        some (bagNext (fun _ => (0 : ℚ)) cexSession.bag).1 ∧
      (tick (fun _ => (0 : ℚ)) cexSession).bag =
        (bagNext (fun _ => (0 : ℚ)) cexSession.bag).2) ∧
    (cexSession.nextPieceType = none →
      (tick (fun _ => (0 : ℚ)) cexSession).piece =
        some ⟨(bagNext (fun _ => (0 : ℚ)) cexSession.bag).1,
          (getTetromino (bagNext (fun _ => (0 : ℚ)) cexSession.bag).1).shape,
          spawnPos (getTetromino (bagNext (fun _ => (0 : ℚ)) cexSession.bag).1).shape,
          (getTetromino (bagNext (fun _ => (0 : ℚ)) cexSession.bag).1).color⟩ ∧
      (tick (fun _ => (0 : ℚ)) cexSession).nextPieceType =
        some (bagNext (fun _ => (0 : ℚ))
          (bagNext (fun _ => (0 : ℚ)) cexSession.bag).2).1 ∧
      (tick (fun _ => (0 : ℚ)) cexSession).bag =
        (bagNext (fun _ => (0 : ℚ))
          (bagNext (fun _ => (0 : ℚ)) cexSession.bag).2).2) :=
  c1_gameover_tick (fun _ => (0 : ℚ)) cexSession cexPiece rfl rfl (by decide) rfl

/-- C5 counterexample: the claim's formula with the row count capped at 4
fails at 5 cleared rows — the code's points[rows] ?? 0 yields 0 there, not the
capped table value 1200. -/
theorem c5_counterexample :
    getScoreForClearedRows 5 0 ≠ points.getD (min 5 4) 0 * (0 + 1) := by decide

/-- C5 (amended): the lock score delta is points[r] * (level + 1) for r at
most 4 and 0 for r at least 5 (no capping), evaluated at the level in effect
at the moment of the lock, before the level is recomputed; in particular
1/2/3/4 rows yield 40/100/300/1200 times (level + 1). -/
theorem c5_score_amended (r L : Nat) (s : Session) (p : PieceState)
    (hs : s.status = GameStatus.running) (hp : s.piece = some p)
    (hinv : isValidPosition s.board p.shape ⟨p.pos.x, p.pos.y + 1⟩ = false) :
    (4 < r → getScoreForClearedRows r L = 0) ∧
    getScoreForClearedRows 0 L = 0 ∧
    getScoreForClearedRows 1 L = 40 * (L + 1) ∧
    getScoreForClearedRows 2 L = 100 * (L + 1) ∧
    getScoreForClearedRows 3 L = 300 * (L + 1) ∧
    getScoreForClearedRows 4 L = 1200 * (L + 1) ∧
    (fallStep s).1.score = s.score + getScoreForClearedRows
      (clearRows (mergeBoard s.board p.shape p.pos p.color)).2 s.level := by
  have hlock := fallStep_lock s p hs hp hinv
  refine ⟨?_, by simp [getScoreForClearedRows, points], rfl, rfl, rfl, rfl, ?_⟩
  · intro hr
    have h0 : points.getD r 0 = 0 := List.getD_eq_default _ _ (by simp [points]; omega)
    rw [getScoreForClearedRows, h0, Nat.zero_mul]
  · rw [hlock]
    by_cases h0 : (clearRows (mergeBoard s.board p.shape p.pos p.color)).2 = 0
    · simp [h0, getScoreForClearedRows, points]
    · simp [h0]

/-- C5 witness: the amended scoring facts instantiated at 5 rows, level 1 and
the concrete locking session. -/
theorem c5_score_amended_witness :
    (4 < 5 → getScoreForClearedRows 5 1 = 0) ∧
    getScoreForClearedRows 0 1 = 0 ∧
    getScoreForClearedRows 1 1 = 40 * (1 + 1) ∧
    getScoreForClearedRows 2 1 = 100 * (1 + 1) ∧
    getScoreForClearedRows 3 1 = 300 * (1 + 1) ∧
    getScoreForClearedRows 4 1 = 1200 * (1 + 1) ∧
    (fallStep cexSession).1.score = cexSession.score + getScoreForClearedRows
      (clearRows (mergeBoard cexSession.board cexPiece.shape cexPiece.pos
        cexPiece.color)).2 cexSession.level :=
  c5_score_amended 5 1 cexSession cexPiece rfl rfl (by decide)

/-- C9: in a running session, a horizontal move, soft-down or rotation whose
target fails isValidPosition is a silent no-op: the entire session state is
returned unchanged. -/
theorem c9_rejected_noop (s : Session) (p : PieceState)
    (hs : s.status = GameStatus.running) (hp : s.piece = some p) :
    (isValidPosition s.board p.shape ⟨p.pos.x - 1, p.pos.y⟩ = false → moveLeft s = s) ∧
    (isValidPosition s.board p.shape ⟨p.pos.x + 1, p.pos.y⟩ = false → moveRight s = s) ∧
    (isValidPosition s.board p.shape ⟨p.pos.x, p.pos.y + 1⟩ = false → moveDown s = s) ∧
    (isValidPosition s.board (rotate p.shape) p.pos = false → rotatePiece s = s) := by
  refine ⟨fun h => ?_, fun h => ?_, fun h => ?_, fun h => ?_⟩
  · simp [moveLeft, hp, hs, h]
  · simp [moveRight, hp, hs, h]
  · simp [moveDown, hp, hs, h]
  · simp [rotatePiece, hp, hs, h]

/-- C9 witness: on the fully blocked concrete session, all four rejected
attempts leave the session unchanged. -/
theorem c9_rejected_noop_witness :
    moveLeft blockedSession = blockedSession ∧
    moveRight blockedSession = blockedSession ∧
    moveDown blockedSession = blockedSession ∧
    rotatePiece blockedSession = blockedSession :=
  ⟨(c9_rejected_noop blockedSession blockedPiece rfl rfl).1 (by decide),
   (c9_rejected_noop blockedSession blockedPiece rfl rfl).2.1 (by decide),
   (c9_rejected_noop blockedSession blockedPiece rfl rfl).2.2.1 (by decide),
   (c9_rejected_noop blockedSession blockedPiece rfl rfl).2.2.2 (by decide)⟩

/-- C7: the generator stream is a function of the seed alone, so two
randomSeededRNG instances built from equal seeds produce identical output
sequences, and the two bag draw functions built over them agree at every draw
index. -/
theorem c7_rng_deterministic (s1 s2 : Int) (h : s1 = s2) :
    (∀ n, rngStream s1 n = rngStream s2 n) ∧
    (∀ n, bagDraw (rngStream s1) n = bagDraw (rngStream s2) n) := by
  subst h
  exact ⟨fun _ => rfl, fun _ => rfl⟩

/-- C7 witness: the determinism facts instantiated at seed 123 and concrete
draw indices. -/
theorem c7_rng_deterministic_witness :
    rngStream 123 0 = rngStream 123 0 ∧
    bagDraw (rngStream 123) 5 = bagDraw (rngStream 123) 5 :=
  ⟨(c7_rng_deterministic 123 123 rfl).1 0, (c7_rng_deterministic 123 123 rfl).2 5⟩

/-- Setting an in-range entry exchanges exactly that entry in the underlying
multiset. -/
lemma multiset_set_add (l : List TetrominoType) (i : Nat) (a : TetrominoType)
    (h : i < l.length) :
    ((l.set i a : List TetrominoType) : Multiset TetrominoType) + {l.getD i .I} =
      (l : Multiset TetrominoType) + {a} := by
  induction l generalizing i with
  | nil => simp at h
  | cons x xs ih =>
    cases i with
    | zero =>
      simp only [List.set_cons_zero, List.getD_cons_zero]
      rw [← Multiset.cons_coe, ← Multiset.cons_coe, ← Multiset.singleton_add,
        ← Multiset.singleton_add]
      abel
    | succ n =>
      have hn : n < xs.length := by simp at h; omega
      simp only [List.set_cons_succ, List.getD_cons_succ]
      rw [← Multiset.cons_coe, ← Multiset.cons_coe, ← Multiset.singleton_add,
        ← Multiset.singleton_add, add_assoc, add_assoc, ih n hn]

/-- The length of a swap. -/
lemma listSwap_length (l : List TetrominoType) (i j : Nat) :
    (listSwap l i j).length = l.length := by
  simp [listSwap]

/-- A swap of two in-range entries is a permutation. -/
lemma listSwap_perm (l : List TetrominoType) (i j : Nat) (hi : i < l.length)
    (hj : j < l.length) : (listSwap l i j).Perm l := by
  rw [← Multiset.coe_eq_coe]
  have hj' : j < (l.set i (l.getD j .I)).length := by simpa using hj
  have h2 := multiset_set_add (l.set i (l.getD j .I)) j (l.getD i .I) hj'
  have h1 := multiset_set_add l i (l.getD j .I) hi
  have hget : (l.set i (l.getD j .I)).getD j .I = l.getD j .I := by
    rcases eq_or_ne i j with rfl | hij
    · rw [List.getD_eq_getElem _ _ hj']
      exact List.getElem_set_self hj'
    · rw [List.getD_eq_getElem _ _ hj', List.getElem_set_ne hij,
        ← List.getD_eq_getElem l _ hj]
  rw [hget] at h2
  exact add_right_cancel (h2.trans h1)

/-- The shuffle never changes the array length. -/
lemma shuffleFrom_length (g : Nat → ℚ) (a : List TetrominoType) (k i : Nat) :
    (shuffleFrom g a k i).length = a.length := by
  induction i generalizing a k with
  | zero => rfl
  | succ n ih => rw [shuffleFrom, ih, listSwap_length]

/-- When every generator output lies in [0,1), every Fisher-Yates index is in
range and the shuffle permutes its input. -/
lemma shuffleFrom_perm (g : Nat → ℚ) (hg : ∀ n, 0 ≤ g n ∧ g n < 1) :
    ∀ (i : Nat) (a : List TetrominoType) (k : Nat), i < a.length →
      (shuffleFrom g a k i).Perm a := by
  intro i
  induction i with
  | zero => intro a k _; exact List.Perm.refl a
  | succ n ih =>
    intro a k hi
    have h0 := (hg k).1
    have h1 := (hg k).2
    have hfl : Int.floor (g k * ((n : ℚ) + 2)) < (n : Int) + 2 := by
      rw [Int.floor_lt]
      have hpos : (0 : ℚ) < (n : ℚ) + 2 := by positivity
      have hlt := mul_lt_mul_of_pos_right h1 hpos
      rw [one_mul] at hlt
      push_cast
      exact hlt
    have hnn : (0 : Int) ≤ Int.floor (g k * ((n : ℚ) + 2)) := by
      apply Int.floor_nonneg.mpr
      have hpos : (0 : ℚ) ≤ (n : ℚ) + 2 := by positivity
      exact mul_nonneg h0 hpos
    have hjlt : (Int.floor (g k * ((n : ℚ) + 2))).toNat < a.length := by omega
    show (shuffleFrom g (listSwap a (n + 1) ((Int.floor (g k * ((n : ℚ) + 2))).toNat))
      (k + 1) n).Perm a
    exact (ih (listSwap a (n + 1) _) (k + 1) (by rw [listSwap_length]; omega)).trans
      (listSwap_perm a (n + 1) _ hi hjlt)

/-- A list of length 7 is a literal seven-element list. -/
lemma exists_seven (l : List TetrominoType) (h : l.length = 7) :
    ∃ a0 a1 a2 a3 a4 a5 a6, l = [a0, a1, a2, a3, a4, a5, a6] := by
  rcases l with _ | ⟨b0, _ | ⟨b1, _ | ⟨b2, _ | ⟨b3, _ | ⟨b4, _ | ⟨b5, _ | ⟨b6, _ | ⟨b7, t⟩⟩⟩⟩⟩⟩⟩⟩ <;>
    first
      | exact ⟨b0, b1, b2, b3, b4, b5, b6, rfl⟩
      | (exfalso; simp at h)

/-- One draw from a nonempty bag pops the last element. -/
lemma bagNext_cons (g : Nat → ℚ) (b : List TetrominoType) (x : TetrominoType) (c : Nat) :
    bagNext g ⟨b ++ [x], c⟩ = (x, ⟨b, c⟩) := by
  have hne : (b ++ [x]).isEmpty = false := by cases b <;> rfl
  simp [bagNext, bagRefill, hne, List.getLast?_concat, List.dropLast_concat]

/-- Running the seven draws of one bag cycle: starting from an empty bag at
stream position c, the seven successive draws are the refilled shuffle read
from its last element down to its first, and the bag is empty again
afterwards with six generator calls consumed. -/
lemma pops7 (g : Nat → ℚ) (c n : Nat) (a0 a1 a2 a3 a4 a5 a6 : TetrominoType)
    (hb : shuffleFrom g TETROMINO_SEQUENCE c 6 = [a0, a1, a2, a3, a4, a5, a6])
    (hn : bagStateAfter g n = ⟨[], c⟩) :
    bagStateAfter g (n + 7) = ⟨[], c + 6⟩ ∧
    bagDraw g n = a6 ∧ bagDraw g (n + 1) = a5 ∧ bagDraw g (n + 2) = a4 ∧
    bagDraw g (n + 3) = a3 ∧ bagDraw g (n + 4) = a2 ∧ bagDraw g (n + 5) = a1 ∧
    bagDraw g (n + 6) = a0 := by
  have hb' : shuffleFrom g TETROMINO_SEQUENCE c 6 = [a0, a1, a2, a3, a4, a5] ++ [a6] := by
    rw [hb]; rfl
  have e0 : bagNext g ⟨[], c⟩ = (a6, ⟨[a0, a1, a2, a3, a4, a5], c + 6⟩) := by
    simp [bagNext, bagRefill, hb', List.getLast?_concat, List.dropLast_concat]
  have e1 : bagNext g ⟨[a0, a1, a2, a3, a4, a5], c + 6⟩ =
      (a5, ⟨[a0, a1, a2, a3, a4], c + 6⟩) := bagNext_cons g [a0, a1, a2, a3, a4] a5 (c + 6)
  have e2 : bagNext g ⟨[a0, a1, a2, a3, a4], c + 6⟩ =
      (a4, ⟨[a0, a1, a2, a3], c + 6⟩) := bagNext_cons g [a0, a1, a2, a3] a4 (c + 6)
  have e3 : bagNext g ⟨[a0, a1, a2, a3], c + 6⟩ =
      (a3, ⟨[a0, a1, a2], c + 6⟩) := bagNext_cons g [a0, a1, a2] a3 (c + 6)
  have e4 : bagNext g ⟨[a0, a1, a2], c + 6⟩ =
      (a2, ⟨[a0, a1], c + 6⟩) := bagNext_cons g [a0, a1] a2 (c + 6)
  have e5 : bagNext g ⟨[a0, a1], c + 6⟩ =
      (a1, ⟨[a0], c + 6⟩) := bagNext_cons g [a0] a1 (c + 6)
  have e6 : bagNext g ⟨[a0], c + 6⟩ =
      (a0, ⟨[], c + 6⟩) := bagNext_cons g [] a0 (c + 6)
  have s1 : bagStateAfter g (n + 1) = ⟨[a0, a1, a2, a3, a4, a5], c + 6⟩ := by
    show (bagNext g (bagStateAfter g n)).2 = ⟨[a0, a1, a2, a3, a4, a5], c + 6⟩
    rw [hn, e0]
  have s2 : bagStateAfter g (n + 2) = ⟨[a0, a1, a2, a3, a4], c + 6⟩ := by
    show (bagNext g (bagStateAfter g (n + 1))).2 = ⟨[a0, a1, a2, a3, a4], c + 6⟩
    rw [s1, e1]
  have s3 : bagStateAfter g (n + 3) = ⟨[a0, a1, a2, a3], c + 6⟩ := by
    show (bagNext g (bagStateAfter g (n + 2))).2 = ⟨[a0, a1, a2, a3], c + 6⟩
    rw [s2, e2]
  have s4 : bagStateAfter g (n + 4) = ⟨[a0, a1, a2], c + 6⟩ := by
    show (bagNext g (bagStateAfter g (n + 3))).2 = ⟨[a0, a1, a2], c + 6⟩
    rw [s3, e3]
  have s5 : bagStateAfter g (n + 5) = ⟨[a0, a1], c + 6⟩ := by
    show (bagNext g (bagStateAfter g (n + 4))).2 = ⟨[a0, a1], c + 6⟩
    rw [s4, e4]
  have s6 : bagStateAfter g (n + 6) = ⟨[a0], c + 6⟩ := by
    show (bagNext g (bagStateAfter g (n + 5))).2 = ⟨[a0], c + 6⟩
    rw [s5, e5]
  have s7 : bagStateAfter g (n + 7) = ⟨[], c + 6⟩ := by
    show (bagNext g (bagStateAfter g (n + 6))).2 = ⟨[], c + 6⟩
    rw [s6, e6]
  refine ⟨s7, ?_, ?_, ?_, ?_, ?_, ?_, ?_⟩
  · show (bagNext g (bagStateAfter g n)).1 = a6
    rw [hn, e0]
  · show (bagNext g (bagStateAfter g (n + 1))).1 = a5
    rw [s1, e1]
  · show (bagNext g (bagStateAfter g (n + 2))).1 = a4
    rw [s2, e2]
  · show (bagNext g (bagStateAfter g (n + 3))).1 = a3
    rw [s3, e3]
  · show (bagNext g (bagStateAfter g (n + 4))).1 = a2
    rw [s4, e4]
  · show (bagNext g (bagStateAfter g (n + 5))).1 = a1
    rw [s5, e5]
  · show (bagNext g (bagStateAfter g (n + 6))).1 = a0
    rw [s6, e6]

/-- After every 7k draws the bag is empty again and 6k generator calls have
been consumed. -/
lemma bagState_cycle (g : Nat → ℚ) (k : Nat) : bagStateAfter g (7 * k) = ⟨[], 6 * k⟩ := by
  induction k with
  | zero => rfl
  | succ m ih =>
    obtain ⟨a0, a1, a2, a3, a4, a5, a6, hb⟩ :=
      exists_seven (shuffleFrom g TETROMINO_SEQUENCE (6 * m) 6)
        (by simp [shuffleFrom_length, TETROMINO_SEQUENCE])
    have h7 := (pops7 g (6 * m) (7 * m) a0 a1 a2 a3 a4 a5 a6 hb ih).1
    have e1 : 7 * (m + 1) = 7 * m + 7 := by ring
    have e2 : 6 * m + 6 = 6 * (m + 1) := by ring
    rw [e1, h7, e2]

/-- C4: for a generator whose outputs all lie in [0,1), every consecutive
non-overlapping window of 7 bag draws is a permutation of the 7 canonical
tetromino types, each type occurring exactly once. -/
theorem c4_bag_fairness (g : Nat → ℚ) (hg : ∀ n, 0 ≤ g n ∧ g n < 1) (k : Nat) :
    ([bagDraw g (7 * k), bagDraw g (7 * k + 1), bagDraw g (7 * k + 2), bagDraw g (7 * k + 3),
      bagDraw g (7 * k + 4), bagDraw g (7 * k + 5),
      bagDraw g (7 * k + 6)]).Perm TETROMINO_SEQUENCE ∧
    ∀ t : TetrominoType,
      ([bagDraw g (7 * k), bagDraw g (7 * k + 1), bagDraw g (7 * k + 2), bagDraw g (7 * k + 3),
        bagDraw g (7 * k + 4), bagDraw g (7 * k + 5), bagDraw g (7 * k + 6)]).count t = 1 := by
  obtain ⟨a0, a1, a2, a3, a4, a5, a6, hb⟩ :=
    exists_seven (shuffleFrom g TETROMINO_SEQUENCE (6 * k) 6)
      (by simp [shuffleFrom_length, TETROMINO_SEQUENCE])
  obtain ⟨hs7, d0, d1, d2, d3, d4, d5, d6⟩ :=
    pops7 g (6 * k) (7 * k) a0 a1 a2 a3 a4 a5 a6 hb (bagState_cycle g k)
  rw [d0, d1, d2, d3, d4, d5, d6]
  have h1 : ([a6, a5, a4, a3, a2, a1, a0]).Perm [a0, a1, a2, a3, a4, a5, a6] :=
    List.reverse_perm [a0, a1, a2, a3, a4, a5, a6]
  have h2 : ([a0, a1, a2, a3, a4, a5, a6]).Perm TETROMINO_SEQUENCE := by
    rw [← hb]
    exact shuffleFrom_perm g hg 6 TETROMINO_SEQUENCE (6 * k)
      (by simp [TETROMINO_SEQUENCE])
  have hperm := h1.trans h2
  refine ⟨hperm, fun t => ?_⟩
  rw [hperm.count_eq]
  cases t <;> rfl

/-- C4 witness: the fairness facts for the first window of the constant-zero
generator. -/
theorem c4_bag_fairness_witness :
    ([bagDraw (fun _ => (0 : ℚ)) (7 * 0), bagDraw (fun _ => (0 : ℚ)) (7 * 0 + 1),
      bagDraw (fun _ => (0 : ℚ)) (7 * 0 + 2), bagDraw (fun _ => (0 : ℚ)) (7 * 0 + 3),
      bagDraw (fun _ => (0 : ℚ)) (7 * 0 + 4), bagDraw (fun _ => (0 : ℚ)) (7 * 0 + 5),
      bagDraw (fun _ => (0 : ℚ)) (7 * 0 + 6)]).Perm TETROMINO_SEQUENCE ∧
    ∀ t : TetrominoType,
      ([bagDraw (fun _ => (0 : ℚ)) (7 * 0), bagDraw (fun _ => (0 : ℚ)) (7 * 0 + 1),
        bagDraw (fun _ => (0 : ℚ)) (7 * 0 + 2), bagDraw (fun _ => (0 : ℚ)) (7 * 0 + 3),
        bagDraw (fun _ => (0 : ℚ)) (7 * 0 + 4), bagDraw (fun _ => (0 : ℚ)) (7 * 0 + 5),
        bagDraw (fun _ => (0 : ℚ)) (7 * 0 + 6)]).count t = 1 :=
  c4_bag_fairness (fun _ => (0 : ℚ)) (fun _ => ⟨le_refl 0, by norm_num⟩) 0
